import Mathlib

/-!
A verification development for the densor n-dimensional array engine.

The Rust sources under src/ are shallowly embedded below.  Pure functions
become Lean functions; fallible calls return Except; machine integers are
modelled by Nat/Int; the element type of an array is a type parameter.
Modules of the crate that are not present under src/ (the crate root with
strides_for and the numeric-kernel trait, the access layer, the ops module
holding SliceSpec and ViewSpec, and the host platform module) are modelled
from the specification; each such definition carries a doc comment saying
so.  f64 arithmetic is modelled exactly by rational numbers; every concrete
instance evaluated below keeps all intermediate values exactly
representable, so the model agrees with IEEE double arithmetic there.
-/

namespace Densor

/-- The error taxonomy of the library (spec section 7); the human-readable
messages carried by the Rust enum are dropped, only the variant matters. -/
inductive Err
  | Bounds
  | Unsupported
  | Arithmetic
  | Platform
  | IoErr
  deriving DecidableEq

/-- `shape.iter().product()`: the number of elements implied by a shape. -/
def prodShape (s : List Nat) : Nat := s.foldr (· * ·) 1

/-- Natural row-major strides of a shape (no zeroing): the stride of an
axis is the product of the dims after it. -/
def natStrides : List Nat → List Nat
  | [] => []
  | _ :: t => prodShape t :: natStrides t

/-- Modelled from the spec: `strides_for` lives in the crate root, which is
not under src/.  Per spec sections 3 and 4.6, the stride of an axis is the
row-major product of the later dims, except that an axis of dim 1 gets
stride 0 (broadcast strides may contain 0), and the list is left-padded
with zeros up to `ndim`. -/
def stridesCore : List Nat → List Nat
  | [] => []
  | d :: t => (if d = 1 then 0 else prodShape t) :: stridesCore t

/-- Modelled from the spec: see `stridesCore`. -/
def strides_for (shape : List Nat) (ndim : Nat) : List Nat :=
  List.replicate (ndim - shape.length) 0 ++ stridesCore shape

/-- Dot product of a coordinate with a stride list (zip truncates at the
shorter list, as in the Rust iterator chain). -/
def dotStrides (coord strides : List Nat) : Nat :=
  ((coord.zip strides).map fun p => p.1 * p.2).sum

/-- `valid_coord` (src/src/array.rs): a coordinate is legal when its length
equals the number of dims and each index is below its dim. -/
def valid_coord (coord shape : List Nat) : Bool :=
  coord.length == shape.length && (coord.zip shape).all fun p => p.1 < p.2

/-- The read-only access layer (access.rs is not under src/; modelled from
spec section 4.3): an accessor advertises its size, can produce its whole
buffer, and can produce the element at a linear offset. -/
structure Access (α : Type) where
  size : Nat
  read : Except Err (List α)
  read_value : Nat → Except Err α

/-- A buffer-backed accessor (`AccessBuf`): reading yields the buffer, and
a point read is a bounds-checked index (modelled from spec section 4.2:
`Bounds` if `offset ≥ size`). -/
def AccessBuf (buf : List α) : Access α where
  size := buf.length
  read := .ok buf
  read_value o := if h : o < buf.length then .ok (buf.get ⟨o, h⟩) else .error .Bounds

/-- The array facade (`Array<T, A, P>` in src/src/array.rs): a shape plus
an accessor.  The platform selector and the phantom dtype tag carry no
semantic content and are omitted. -/
structure NDArr (α : Type) where
  shape : List Nat
  access : Access α

/-- `NDArray::size` (src/src/array.rs): the product of the dims. -/
def NDArr.size (A : NDArr α) : Nat := prodShape A.shape

/-- `NDArrayRead::buffer` (src/src/array.rs): delegate to the accessor. -/
def NDArr.buffer (A : NDArr α) : Except Err (List α) := A.access.read

/-- `NDArrayRead::read_value` (src/src/array.rs): validate the coordinate,
convert it to a linear offset with `strides_for`, and delegate. -/
def NDArr.read_value (A : NDArr α) (coord : List Nat) : Except Err α :=
  if valid_coord coord A.shape then
    A.access.read_value (dotStrides coord (strides_for A.shape A.shape.length))
  else .error .Bounds

/-- An ascending insertion step, used to model `Vec::sort`. -/
def insertAsc (x : Nat) : List Nat → List Nat
  | [] => [x]
  | y :: ys => if x ≤ y then x :: y :: ys else y :: insertAsc x ys

/-- `axes.sort()`: ascending insertion sort (a model of the standard
library sort, which is stable and ascending). -/
def sortAsc : List Nat → List Nat
  | [] => []
  | x :: xs => insertAsc x (sortAsc xs)

/-- `NDArrayTransform::squeeze` (src/src/array.rs lines 688-700): reject
out-of-range axes, sort them, then remove them from the shape back to
front.  Note that the code never checks that a named axis has dim 1. -/
def NDArr.squeeze (A : NDArr α) (axes : List Nat) : Except Err (NDArr α) :=
  if axes.any fun x => A.shape.length ≤ x then .error .Bounds
  else
    .ok { shape := (sortAsc axes).reverse.foldl
            (fun sh x => sh.eraseIdx x) A.shape
          access := A.access }

/-- Modelled from the spec: `VEC_MIN_SIZE` is declared in host/mod.rs,
which is not under src/.  Spec section 9 keeps it aligned with the
SIMD-friendly chunk size, e.g. 64. -/
def VEC_MIN_SIZE : Nat := 64

/-- A host buffer is either a stack (small) buffer or a heap vector
(src/src/host/buffer.rs, `Buffer<T>`).  The element storage is modelled as
a list in both cases. -/
inductive HostBuffer (α : Type)
  | stack (data : List α)
  | heap (data : List α)

/-- Whether a host buffer took the stack variant. -/
def HostBuffer.isStack : HostBuffer α → Bool
  | .stack _ => true
  | .heap _ => false

/-- The element list held by a host buffer (either variant). -/
def HostBuffer.data : HostBuffer α → List α
  | .stack d => d
  | .heap d => d

/-- `chunks_exact(n)`: split a list into consecutive chunks of exactly `n`
elements, dropping the remainder.  Stated in indexed closed form (chunk
`i` is elements `i*n .. i*n+n`) so that it computes by `rfl`. -/
def chunksExact (n : Nat) (l : List α) : List (List α) :=
  (List.range (l.length / n)).map fun i => (l.drop (i * n)).take n

/-- `par_chunks(n)` / `chunks(n)`: split a list into consecutive chunks of
at most `n` elements, keeping the (nonempty) remainder. -/
def chunksRem (n : Nat) (l : List α) : List (List α) :=
  (List.range ((l.length + n - 1) / n)).map fun i => (l.drop (i * n)).take n

/-- `iter().reduce(f)`: fold a nonempty list from its first element.  The
Rust code unwraps the option with `expect`; the default is only reached on
an empty list, which the call sites rule out. -/
def fold1 (f : α → α → α) (dflt : α) : List α → α
  | [] => dflt
  | x :: xs => xs.foldl f x

/-- Modelled from the spec: the numeric kernel trait `CType` lives in the
crate root, which is not under src/.  Spec section 4.1: pairwise
primitives, a total order, and lossy conversions to and from f64 that are
saturating for integer targets and exact for floats.  f64 itself is
modelled exactly by the rationals; the overflow behaviour of the integer
primitives is not pinned by the spec and is never exercised below. -/
structure CTypeM (τ : Type) where
  add : τ → τ → τ
  sub : τ → τ → τ
  le : τ → τ → Bool
  fromF64 : ℚ → τ
  toF64 : τ → ℚ

/-- The f64 instance of the numeric kernel: conversions are exact. -/
def ratCT : CTypeM ℚ where
  add := (· + ·)
  sub := (· - ·)
  le a b := decide (a ≤ b)
  fromF64 := id
  toF64 := id

/-- The u8 instance of the numeric kernel: `from_f64` saturates at 0 and
255 and truncates toward zero (Rust `as` casts), per spec section 4.1.
On the non-negative branch, truncation toward zero is the floor. -/
def u8CT : CTypeM Nat where
  add a b := (a + b) % 256
  sub a b := a - b
  le a b := decide (a ≤ b)
  fromF64 q := if q < 0 then 0 else if (255 : ℚ) < q then 255
    else (Int.floor q).toNat
  toF64 n := (n : ℚ)

/-- The `Linear` op (src/src/host/ops.rs): start value, f64 step, size. -/
structure Linear (τ : Type) where
  start : τ
  step : ℚ
  size : Nat

/-- `Linear::value_at` (src/src/host/ops.rs lines 480-487):
`T::add(start, T::from_f64(offset as f64 * step))`. -/
def Linear.value_at (ct : CTypeM τ) (l : Linear τ) (offset : Nat) : τ :=
  ct.add l.start (ct.fromF64 ((offset : ℚ) * l.step))

/-- `Enqueue<Stack, T> for Linear` (src/src/host/ops.rs lines 495-511):
each element is `T::from_f64(start.to_f64() + i as f64 * step)`. -/
def Linear.stackEnqueue (ct : CTypeM τ) (l : Linear τ) : List τ :=
  (List.range l.size).map fun (i : Nat) =>
    ct.fromF64 (ct.toF64 l.start + (i : ℚ) * l.step)

/-- `Enqueue<Heap, T> for Linear` (src/src/host/ops.rs lines 513-524):
each element is `value_at(offset)`. -/
def Linear.heapEnqueue (ct : CTypeM τ) (l : Linear τ) : List τ :=
  (List.range l.size).map (l.value_at ct)

/-- `Enqueue<Host, T> for Linear`: the `host_enqueue!` dispatch on
`self.size < VEC_MIN_SIZE`. -/
def Linear.hostEnqueue (ct : CTypeM τ) (l : Linear τ) : HostBuffer τ :=
  if l.size < VEC_MIN_SIZE then .stack (l.stackEnqueue ct) else .heap (l.heapEnqueue ct)

/-- `ReadValue<Host, T> for Linear` (src/src/host/ops.rs lines 534-538):
`Ok(value_at(offset))`, with no bounds check. -/
def Linear.read_value (ct : CTypeM τ) (l : Linear τ) (offset : Nat) : Except Err τ :=
  .ok (l.value_at ct offset)

/-- `Construct<T> for OpenCL::range` (src/src/opencl/platform.rs lines
224-235): reject `start > stop`, otherwise build a `Linear` with step
`(stop - start).to_float().to_f64() / size as f64`. -/
def clRange (ct : CTypeM τ) (start stop : τ) (size : Nat) : Except Err (Linear τ) :=
  if ct.le start stop then
    .ok { start := start, step := ct.toF64 (ct.sub stop start) / (size : ℚ), size := size }
  else .error .Bounds

/-- The `MatDiag` op (src/src/host/ops.rs): source accessor, matrix dim,
batch count. -/
structure MatDiag (α : Type) where
  access : Access α
  dim : Nat
  batch_size : Nat

/-- `Op for MatDiag::size` (src/src/host/ops.rs lines 558-563). -/
def MatDiag.size (m : MatDiag α) : Nat := m.batch_size * m.dim

/-- The shared chunking pipeline of both `Enqueue` impls for `MatDiag`
(src/src/host/ops.rs lines 565-605): for each `dim*dim` matrix, take
element `i` of row `i`. -/
def MatDiag.diagonals [Inhabited α] (m : MatDiag α) (input : List α) : List α :=
  ((chunksExact (m.dim * m.dim) input).map fun matrix =>
    (chunksExact m.dim matrix).enum.map fun p => p.2.getD p.1 default).flatten

/-- `Enqueue<Host, T> for MatDiag`: read the source, chunk out the
diagonals, and dispatch on `self.size() < VEC_MIN_SIZE`. -/
def MatDiag.hostEnqueue [Inhabited α] (m : MatDiag α) : Except Err (HostBuffer α) :=
  (m.access.read).map fun input =>
    if m.size < VEC_MIN_SIZE then .stack (m.diagonals input) else .heap (m.diagonals input)

/-- `ReadValue<Host, T> for MatDiag` (src/src/host/ops.rs lines 615-622):
`batch = offset / batch_size`, `i = offset % batch_size`,
`source_offset = batch*dim*dim + i*dim + i`. -/
def MatDiag.read_value (m : MatDiag α) (offset : Nat) : Except Err α :=
  m.access.read_value (offset / m.batch_size * (m.dim * m.dim)
    + offset % m.batch_size * m.dim + offset % m.batch_size)

/-- The `MatMul` op (src/src/host/ops.rs): operand accessors, batch count,
and dims `[a, b, c]`. -/
structure MatMul (α : Type) where
  left : Access α
  right : Access α
  batch_size : Nat
  a : Nat
  b : Nat
  c : Nat

/-- `Op for MatMul::size` (src/src/host/ops.rs lines 652-655). -/
def MatMul.size (m : MatMul α) : Nat := m.batch_size * m.a * m.c

/-- `Enqueue<Stack, T> for MatMul` (src/src/host/ops.rs lines 657-693):
the sequential triple loop.  (Note: the loop body indexes the operands
with `x*b + y` and `y*c + z` with no batch term, exactly as written.) -/
def MatMul.stackEnqueue [Inhabited α] (zero : α) (add mul : α → α → α)
    (m : MatMul α) (left right : List α) : List α :=
  ((List.range m.batch_size).map fun _batch =>
    ((List.range m.a).map fun x =>
      (List.range m.c).map fun z =>
        (List.range m.b).foldl
          (fun sum y => add sum (mul (left.getD (x * m.b + y) default)
            (right.getD (y * m.c + z) default)))
          zero).flatten).flatten

/-- `Enqueue<Heap, T> for MatMul` (src/src/host/ops.rs lines 695-758):
per batch, transpose the right matrix, then compute each row-by-column dot
product in chunks of 8. -/
def MatMul.heapEnqueue [Inhabited α] (zero : α)
    (add mul : α → α → α) (m : MatMul α) (left right : List α) : List α :=
  ((chunksExact (m.a * m.b) left).zip
    ((chunksExact (m.b * m.c) right).map fun rm =>
      (List.range m.c).map fun z => (List.range m.b).map fun y =>
        rm.getD (y * m.c + z) default)).map
    (fun p =>
      ((chunksExact m.b p.1).map fun row =>
        p.2.map fun col =>
          ((chunksRem 8 row).zip (chunksRem 8 col)).foldl
            (fun acc q =>
              add acc (fold1 add zero ((q.1.zip q.2).map fun e => mul e.1 e.2)))
            zero).flatten)
    |>.flatten

/-- `Enqueue<Host, T> for MatMul` (src/src/host/ops.rs lines 761-776): the
dispatch condition is `left.size() < VEC_MIN_SIZE && right.size() <
VEC_MIN_SIZE`. -/
def MatMul.hostEnqueue [Inhabited α] (zero : α)
    (add mul : α → α → α) (m : MatMul α) : Except Err (HostBuffer α) := do
  let left ← m.left.read
  let right ← m.right.read
  if m.left.size < VEC_MIN_SIZE ∧ m.right.size < VEC_MIN_SIZE then
    return .stack (m.stackEnqueue zero add mul left right)
  else
    return .heap (m.heapEnqueue zero add mul left right)

/-- `ReadValue<Host, T> for MatMul` (src/src/host/ops.rs lines 778-790):
always a `Bounds` error. -/
def MatMul.read_value (_m : MatMul α) (_offset : Nat) : Except Err α :=
  .error .Bounds

/-- The `Reduce` op (src/src/host/ops.rs): source accessor, reduce stride,
binary operator, identity element. -/
structure Reduce (α : Type) where
  access : Access α
  stride : Nat
  reduce : α → α → α
  id : α

/-- `Op for Reduce::size` (src/src/host/ops.rs lines 1195-1200):
`access.size() / stride`. -/
def Reduce.size (r : Reduce α) : Nat := r.access.size / r.stride

/-- `Enqueue<Stack, T> for Reduce` (src/src/host/ops.rs lines 1226-1240):
fold each `stride`-chunk from its first element. -/
def Reduce.stackEnqueue (r : Reduce α) (slice : List α) : List α :=
  (chunksExact r.stride slice).map (fold1 r.reduce r.id)

/-- `Enqueue<Heap, T> for Reduce` (src/src/host/ops.rs lines 1202-1224):
fold each `stride`-chunk in sub-chunks of 8, combining with the identity. -/
def Reduce.heapEnqueue (r : Reduce α) (slice : List α) : List α :=
  (chunksExact r.stride slice).map fun chunk =>
    ((chunksRem 8 chunk).map (fold1 r.reduce r.id)).foldl r.reduce r.id

/-- `Enqueue<Host, T> for Reduce` (src/src/host/ops.rs lines 1242-1252):
the dispatch condition is `stride < VEC_MIN_SIZE && size() < VEC_MIN_SIZE`. -/
def Reduce.hostEnqueue (r : Reduce α) : Except Err (HostBuffer α) :=
  (r.access.read).map fun slice =>
    if r.stride < VEC_MIN_SIZE ∧ r.size < VEC_MIN_SIZE then
      .stack (r.stackEnqueue slice)
    else .heap (r.heapEnqueue slice)

/-- `ReadValue<Host, T> for Reduce` (src/src/host/ops.rs lines 1254-1269):
scale the offset by the stride, bounds-check it against the source, then
fold the `stride` source reads starting from the identity. -/
def Reduce.read_value (r : Reduce α) (offset : Nat) : Except Err α :=
  if offset * r.stride < r.access.size then
    ((List.range r.stride).mapM fun k => r.access.read_value (offset * r.stride + k)).map
      fun vals => vals.foldl r.reduce r.id
  else .error .Bounds

/-- Modelled from the spec: `ViewSpec` lives in the crate ops module,
which is not under src/.  Spec section 3: it holds an output shape, the
output strides (the row-major strides of the output shape, built by
`strides_for`), and per-axis source strides. -/
structure ViewSpec where
  shape : List Nat
  source_strides : List Nat

/-- The per-axis output coordinates of a linear offset: spec section 4.6,
`(offset / stride[i]) mod dim[i]` with the output strides produced by
`strides_for` on the output shape; an axis whose stride is 0 contributes
index 0. -/
def coordsOf (off : Nat) : List Nat → List Nat
  | [] => []
  | d :: t =>
    (if (if d = 1 then 0 else prodShape t) = 0 then 0
     else (off / prodShape t) % d) :: coordsOf off t

/-- `ViewSpec::size`: the product of the output dims. -/
def ViewSpec.size (spec : ViewSpec) : Nat := prodShape spec.shape

/-- Modelled from the spec (sections 3 and 4.6): `source_offset` decomposes
the output offset into per-axis indices and sums `index * source_stride`,
right-aligning the indices with the source strides. -/
def ViewSpec.source_offset (spec : ViewSpec) (off : Nat) : Nat :=
  dotStrides (coordsOf off spec.shape).reverse spec.source_strides.reverse

/-- `View::broadcast` (src/src/host/ops.rs lines 1646-1655): the source
strides are `strides_for(&shape, shape.len())` and the view spec pairs
them with the broadcast (target) shape. -/
def View.broadcastSpec (shape broadcast : List Nat) : ViewSpec :=
  { shape := broadcast, source_strides := strides_for shape shape.length }

/-- The accessor presented by an `AccessOp` wrapping a `View` (the access
layer is modelled from spec section 4.3: an op is itself an accessor whose
`read` materializes the op and whose `read_value` delegates to the op).
Enqueue of a `View` (src/src/host/ops.rs lines 1676-1706) gathers
`source[spec.source_offset(offset)]` for each output offset. -/
def viewAccess [Inhabited α] (access : Access α) (spec : ViewSpec) : Access α where
  size := spec.size
  read := access.read.map fun source =>
    (List.range spec.size).map fun offset => source.getD (spec.source_offset offset) default
  read_value offset := access.read_value (spec.source_offset offset)

/-- `can_broadcast` (src/src/array.rs lines 1605-1620): normalize so the
longer shape comes first, then right-align and demand each pair equal or
containing a 1. -/
def canBroadcastZip (longer shorter : List Nat) : Bool :=
  (longer.reverse.zip shorter.reverse).all fun p => p.1 == p.2 || p.1 == 1 || p.2 == 1

/-- See `canBroadcastZip`. -/
def can_broadcast (left right : List Nat) : Bool :=
  if left.length < right.length then canBroadcastZip right left
  else canBroadcastZip left right

/-- `NDArrayTransform::broadcast` (src/src/array.rs lines 629-646) on the
host platform: validate with `can_broadcast`, then wrap a broadcast
`View`. -/
def NDArr.broadcast [Inhabited α] (A : NDArr α) (shape : List Nat) :
    Except Err (NDArr α) :=
  if can_broadcast A.shape shape then
    .ok { shape := shape
          access := viewAccess A.access (View.broadcastSpec A.shape shape) }
  else .error .Bounds

/-- The axis range variants (spec section 3): `At(i)` removes the axis,
`In(start, stop, step)` is a strided span, `Of(indices)` is a gather. -/
inductive AxisRange
  | atIdx (i : Nat)
  | interval (start stop step : Nat)
  | ofIdx (indices : List Nat)

/-- `range_shape` (crate root, not under src/; modelled from spec section
4.5): the output shape drops `At` axes, `In(start, stop, step)` contributes
`ceil((stop - start) / step)`, `Of(indices)` contributes `len(indices)`. -/
def range_shape (range : List AxisRange) : List Nat :=
  range.filterMap fun r =>
    match r with
    | .atIdx _ => none
    | .interval start stop step => some ((stop - start + step - 1) / step)
    | .ofIdx indices => some indices.length

/-- Modelled from the spec: `SliceSpec` lives in the crate ops module,
which is not under src/.  Spec section 3: it holds the source strides, the
source shape, the range, and the output shape and strides. -/
structure SliceSpec where
  source_shape : List Nat
  range : List AxisRange

/-- `SliceSpec::size`: the product of the output dims. -/
def SliceSpec.size (spec : SliceSpec) : Nat := prodShape (range_shape spec.range)

/-- The recursive walk of `source_offset`: each source axis contributes
`index * source_stride` where the index is taken from the range (`At`
contributes its fixed index and consumes no output axis; `In` and `Of`
decode one output coordinate via the output strides). -/
def sliceOffsetGo (off : Nat) :
    List (AxisRange × Nat) → List (Nat × Nat) → Nat
  | [], _ => 0
  | (.atIdx i, st) :: rest, outs => i * st + sliceOffsetGo off rest outs
  | (.interval _ _ _, _) :: _, [] => 0
  | (.interval start _ step, st) :: rest, (d, ostr) :: outs =>
      (start + off / ostr % d * step) * st + sliceOffsetGo off rest outs
  | (.ofIdx _, _) :: _, [] => 0
  | (.ofIdx indices, st) :: rest, (d, ostr) :: outs =>
      indices.getD (off / ostr % d) 0 * st + sliceOffsetGo off rest outs

/-- Modelled from the spec (sections 3 and 4.4): `source_offset` converts
an output offset into a source offset by decoding the output coordinates
and mapping each through the range. -/
def SliceSpec.source_offset (spec : SliceSpec) (off : Nat) : Nat :=
  sliceOffsetGo off (spec.range.zip (stridesCore spec.source_shape))
    ((range_shape spec.range).zip (natStrides (range_shape spec.range)))

/-- `ReadValue<Host, T> for Slice` (src/src/host/ops.rs lines 1387-1392):
read the source at `spec.source_offset(offset)`. -/
def Slice.read_value (spec : SliceSpec) (access : Access α) (offset : Nat) :
    Except Err α :=
  access.read_value (spec.source_offset offset)

/-- `write_value_at` of a mutable buffer accessor (the access layer is not
under src/; modelled from spec section 4.2: store one element, `Bounds` if
the offset is out of range). -/
def write_value_at (buf : List α) (o : Nat) (v : α) : Except Err (List α) :=
  if o < buf.length then .ok (buf.set o v) else .error .Bounds

/-- `Slice::overwrite_value` (src/src/host/ops.rs lines 1336-1343): for
every offset in `0..self.access.size()` — the SOURCE size, exactly as the
code iterates — scatter `value` to `spec.source_offset(offset)`.  The
mutable source accessor is modelled as its buffer. -/
def Slice.overwrite_value (spec : SliceSpec) (src : List α) (value : α) :
    Except Err (List α) :=
  (List.range src.length).foldlM
    (fun buf o => write_value_at buf (spec.source_offset o) value) src

/-- The `RandomNormal` op (src/src/host/ops.rs): just a size.  The random
number generator is an external collaborator (spec section 1); the enqueue
paths below take the uniform draw stream and the Box-Muller kernel (a
float computation) as parameters. -/
structure RandomNormal where
  size : Nat

/-- `Enqueue<Heap, f32> for RandomNormal` (src/src/host/ops.rs lines
1025-1057): fill a buffer of `size` rounded up to even with draws, map
each exact pair through Box-Muller, flatten, and pop the surplus element
if the result is longer than `size`. -/
def RandomNormal.heapEnqueue [Inhabited α] (op : RandomNormal)
    (rng : Nat → α) (bm : α → α → α × α) : List α :=
  let len := if op.size % 2 = 0 then op.size else op.size + 1
  let u := (List.range len).map rng
  let output := ((chunksExact 2 u).map fun p =>
    [(bm (p.getD 0 default) (p.getD 1 default)).1,
     (bm (p.getD 0 default) (p.getD 1 default)).2]).flatten
  if op.size < output.length then output.dropLast else output

/-- `Enqueue<Stack, f32> for RandomNormal` (src/src/host/ops.rs lines
1059-1079): draw `ceil(size / 2)` pairs, map through Box-Muller, flatten,
and pop the surplus element if longer than `size`. -/
def RandomNormal.stackEnqueue [Inhabited α] (op : RandomNormal)
    (rng : Nat → α) (bm : α → α → α × α) : List α :=
  let output := ((List.range ((op.size + 1) / 2)).map fun i =>
    [(bm (rng (2 * i)) (rng (2 * i + 1))).1,
     (bm (rng (2 * i)) (rng (2 * i + 1))).2]).flatten
  if op.size < output.length then output.dropLast else output

/-- `Enqueue<Host, f32> for RandomNormal` (src/src/host/ops.rs lines
1081-1087): dispatch on `self.size < VEC_MIN_SIZE`. -/
def RandomNormal.hostEnqueue [Inhabited α] (op : RandomNormal)
    (rng : Nat → α) (bm : α → α → α × α) : HostBuffer α :=
  if op.size < VEC_MIN_SIZE then .stack (op.stackEnqueue rng bm)
  else .heap (op.heapEnqueue rng bm)

/-- `ReadValue<Host, f32> for RandomNormal` (src/src/host/ops.rs lines
1089-1095): always a `Bounds` error. -/
def RandomNormal.read_value (_op : RandomNormal) (_offset : Nat) :
    Except Err α :=
  .error .Bounds

/-- The `RandomUniform` op (src/src/host/ops.rs): just a size. -/
structure RandomUniform where
  size : Nat

/-- `Enqueue<Host, f32> for RandomUniform` (src/src/host/ops.rs lines
1113-1139): both paths fill a `size`-element buffer with draws; dispatch
on `self.size < VEC_MIN_SIZE`. -/
def RandomUniform.hostEnqueue (op : RandomUniform) (rng : Nat → α) :
    HostBuffer α :=
  if op.size < VEC_MIN_SIZE then .stack ((List.range op.size).map rng)
  else .heap ((List.range op.size).map rng)

/-- The `Cast` op (src/src/host/ops.rs): a source accessor; the conversion
is `OT::from_f64(n.to_f64())`. -/
structure CastOp (α : Type) where
  access : Access α

/-- `Enqueue<Host, OT> for Cast` (src/src/host/ops.rs lines 50-90): both
paths map the conversion over the source; dispatch on
`self.size() < VEC_MIN_SIZE`. -/
def CastOp.hostEnqueue (ci : CTypeM α) (co : CTypeM β) (op : CastOp α) :
    Except Err (HostBuffer β) :=
  (op.access.read).map fun slice =>
    if op.access.size < VEC_MIN_SIZE then
      .stack (slice.map fun n => co.fromF64 (ci.toF64 n))
    else .heap (slice.map fun n => co.fromF64 (ci.toF64 n))

/-- `ReadValue<Host, OT> for Cast` (src/src/host/ops.rs lines 92-99). -/
def CastOp.read_value (ci : CTypeM α) (co : CTypeM β) (op : CastOp α)
    (offset : Nat) : Except Err β :=
  (op.access.read_value offset).map fun n => co.fromF64 (ci.toF64 n)

/-- The `Dual` op (src/src/host/ops.rs): two operand accessors and a zip
function pointer. -/
structure DualOp (α β : Type) where
  left : Access α
  right : Access α
  zip : α → α → β

/-- `Enqueue<Host, OT> for Dual` (src/src/host/ops.rs lines 262-305): both
paths zip the operand slices; dispatch on `self.size() < VEC_MIN_SIZE`
where `size()` is `left.size()`. -/
def DualOp.hostEnqueue (op : DualOp α β) : Except Err (HostBuffer β) := do
  let left ← op.left.read
  let right ← op.right.read
  if op.left.size < VEC_MIN_SIZE then
    return .stack ((left.zip right).map fun p => op.zip p.1 p.2)
  else
    return .heap ((left.zip right).map fun p => op.zip p.1 p.2)

/-- The `Scalar` op (src/src/host/ops.rs): an accessor, a fixed right
operand, and an op function pointer. -/
structure ScalarOp (α β : Type) where
  access : Access α
  scalar : α
  op : α → α → β

/-- `Enqueue<Host, OT> for Scalar` (src/src/host/ops.rs lines 930-987):
both paths map `op(l, scalar)`; dispatch on `self.size() < VEC_MIN_SIZE`. -/
def ScalarOp.hostEnqueue (s : ScalarOp α β) : Except Err (HostBuffer β) :=
  (s.access.read).map fun slice =>
    if s.access.size < VEC_MIN_SIZE then
      .stack (slice.map fun l => s.op l s.scalar)
    else .heap (slice.map fun l => s.op l s.scalar)

/-- The `Unary` op (src/src/host/ops.rs): an accessor and an op function
pointer. -/
structure UnaryOp (α β : Type) where
  access : Access α
  op : α → β

/-- `Enqueue<Host, OT> for Unary` (src/src/host/ops.rs lines 1584-1627):
both paths map `op`; dispatch on `self.size() < VEC_MIN_SIZE`. -/
def UnaryOp.hostEnqueue (u : UnaryOp α β) : Except Err (HostBuffer β) :=
  (u.access.read).map fun slice =>
    if u.access.size < VEC_MIN_SIZE then .stack (slice.map u.op)
    else .heap (slice.map u.op)

/-- The `Cond` op (src/src/host/ops.rs): a `u8` condition accessor and two
value accessors. -/
structure CondOp (α : Type) where
  cond : Access Nat
  thenA : Access α
  orElse : Access α

/-- `Enqueue<Host, T> for Cond` (src/src/host/ops.rs lines 351-439): both
paths select `then` where the condition is nonzero; dispatch on
`self.size() < VEC_MIN_SIZE` where `size()` is `cond.size()`. -/
def CondOp.hostEnqueue (op : CondOp α) : Except Err (HostBuffer α) := do
  let cond ← op.cond.read
  let thenV ← op.thenA.read
  let elseV ← op.orElse.read
  let out := (cond.zip (thenV.zip elseV)).map fun p =>
    if p.1 ≠ 0 then p.2.1 else p.2.2
  if op.cond.size < VEC_MIN_SIZE then return .stack out
  else return .heap out

/-- The `Slice` op's `Enqueue<Host, T>` dispatch (src/src/host/ops.rs
lines 1357-1385): both paths gather through `source_offset`; dispatch on
`self.size() < VEC_MIN_SIZE`. -/
def Slice.hostEnqueue [Inhabited α] (spec : SliceSpec) (access : Access α) :
    Except Err (HostBuffer α) :=
  (access.read).map fun source =>
    let out := (List.range spec.size).map fun o =>
      source.getD (spec.source_offset o) default
    if spec.size < VEC_MIN_SIZE then .stack out else .heap out

/-- The `View` op's `Enqueue<Host, T>` dispatch (src/src/host/ops.rs lines
1708-1714): dispatch on `self.size() < VEC_MIN_SIZE`. -/
def View.hostEnqueue [Inhabited α] (spec : ViewSpec) (access : Access α) :
    Except Err (HostBuffer α) :=
  (access.read).map fun source =>
    let out := (List.range spec.size).map fun o =>
      source.getD (spec.source_offset o) default
    if spec.size < VEC_MIN_SIZE then .stack out else .heap out

/-- The accessor presented by an `AccessOp` wrapping an op on the Host
platform (the access layer is modelled from spec section 4.3): `read`
materializes the op through its Host enqueue and `read_value` delegates
to the op's point read. -/
def accessOfHost (size : Nat) (enq : Except Err (HostBuffer α))
    (rv : Nat → Except Err α) : Access α :=
  ⟨size, enq.map HostBuffer.data, rv⟩

/-- A concrete 1x1-by-1x1 matrix multiplication op. -/
def mmEx : MatMul Int :=
  { left := AccessBuf [2], right := AccessBuf [3],
    batch_size := 1, a := 1, b := 1, c := 1 }

/-- The array facade over the unevaluated `mmEx` node (shape [1,1]). -/
def mmArr : NDArr Int :=
  ⟨[1, 1], accessOfHost mmEx.size (mmEx.hostEnqueue 0 (· + ·) (· * ·))
    mmEx.read_value⟩

/-- A concrete MatDiag op: one 2x2 matrix [[10,20],[30,40]]. -/
def mdEx : MatDiag Int :=
  { access := AccessBuf [10, 20, 30, 40], dim := 2, batch_size := 1 }

/-- A concrete gather slice over a 2-element source whose output (size 3)
is larger than its source: range `[Of([0, 0, 1])]`. -/
def sliceEx : SliceSpec :=
  { source_shape := [2], range := [.ofIdx [0, 0, 1]] }

/-- A reduce op whose stride 64 reaches VEC_MIN_SIZE while its output
size 1 stays below it. -/
def reduceWide : Reduce Int :=
  { access := AccessBuf (List.replicate 64 0), stride := 64,
    reduce := fun a b => a + b, id := 0 }

/-- A small reduce op: sums pairs of [1, 2, 3, 4]. -/
def reduceNarrow : Reduce Int :=
  { access := AccessBuf [1, 2, 3, 4], stride := 2,
    reduce := fun a b => a + b, id := 0 }

/-! ### Shared lemmas about coordinates, strides and offsets -/

theorem prodShape_cons (d : Nat) (t : List Nat) :
    prodShape (d :: t) = d * prodShape t := rfl

theorem valid_coord_nil : valid_coord [] [] = true := rfl

theorem valid_coord_cons {i d : Nat} {c t : List Nat} :
    valid_coord (i :: c) (d :: t) = true ↔ i < d ∧ valid_coord c t = true := by
  simp [valid_coord]
  tauto

theorem valid_coord_length {c s : List Nat} (h : valid_coord c s = true) :
    c.length = s.length := by
  simp [valid_coord] at h
  exact h.1

theorem valid_coord_prod_pos {c s : List Nat} (h : valid_coord c s = true) :
    0 < prodShape s := by
  induction s generalizing c with
  | nil => simp [prodShape]
  | cons d t ih =>
    cases c with
    | nil => exact absurd (valid_coord_length h) (by simp)
    | cons i c =>
      obtain ⟨hid, hct⟩ := valid_coord_cons.mp h
      have := ih hct
      rw [prodShape_cons]
      exact Nat.mul_pos (Nat.lt_of_le_of_lt (Nat.zero_le i) hid) this

theorem dotStrides_nil_left (st : List Nat) : dotStrides [] st = 0 := rfl

theorem dotStrides_cons {i s : Nat} {c st : List Nat} :
    dotStrides (i :: c) (s :: st) = i * s + dotStrides c st := by
  simp [dotStrides]

/-- On a legal coordinate the zeroed broadcast strides give the same
offset as the natural row-major strides, because a dim-1 axis forces a
zero index. -/
theorem dotStrides_stridesCore_eq {c s : List Nat}
    (h : valid_coord c s = true) :
    dotStrides c (stridesCore s) = dotStrides c (natStrides s) := by
  induction s generalizing c with
  | nil =>
    cases c with
    | nil => rfl
    | cons i c => exact absurd (valid_coord_length h) (by simp)
  | cons d t ih =>
    cases c with
    | nil => exact absurd (valid_coord_length h) (by simp)
    | cons i c =>
      obtain ⟨hid, hct⟩ := valid_coord_cons.mp h
      rw [stridesCore, natStrides, dotStrides_cons, dotStrides_cons, ih hct]
      by_cases hd : d = 1
      · subst hd
        have : i = 0 := by omega
        simp [this]
      · simp [hd]

/-- The row-major offset of a legal coordinate is below the element
count. -/
theorem dotStrides_natStrides_lt {c s : List Nat}
    (h : valid_coord c s = true) :
    dotStrides c (natStrides s) < prodShape s := by
  induction s generalizing c with
  | nil =>
    cases c with
    | nil => simp [dotStrides, prodShape]
    | cons i c => exact absurd (valid_coord_length h) (by simp)
  | cons d t ih =>
    cases c with
    | nil => exact absurd (valid_coord_length h) (by simp)
    | cons i c =>
      obtain ⟨hid, hct⟩ := valid_coord_cons.mp h
      rw [natStrides, dotStrides_cons, prodShape_cons]
      have hr := ih hct
      calc i * prodShape t + dotStrides c (natStrides t)
          < i * prodShape t + prodShape t := by omega
        _ = (i + 1) * prodShape t := by ring
        _ ≤ d * prodShape t := Nat.mul_le_mul_right _ hid

/-- Adding a multiple of the total size to an offset does not change the
decoded per-axis coordinates. -/
theorem coordsOf_add_mul (a r : Nat) (s : List Nat) :
    coordsOf (a * prodShape s + r) s = coordsOf r s := by
  induction s generalizing a with
  | nil => rfl
  | cons d t ih =>
    by_cases hP : prodShape t = 0
    · have hzero : a * prodShape (d :: t) + r = r := by
        rw [prodShape_cons, hP]; ring_nf
      rw [hzero]
    · have hP' : 0 < prodShape t := Nat.pos_of_ne_zero hP
      rw [prodShape_cons,
        show coordsOf (a * (d * prodShape t) + r) (d :: t)
          = (if (if d = 1 then 0 else prodShape t) = 0 then 0
             else (a * (d * prodShape t) + r) / prodShape t % d)
            :: coordsOf (a * (d * prodShape t) + r) t from rfl,
        show coordsOf r (d :: t)
          = (if (if d = 1 then 0 else prodShape t) = 0 then 0
             else r / prodShape t % d) :: coordsOf r t from rfl]
      simp only [List.cons.injEq]
      refine ⟨?_, ?_⟩
      · by_cases hd : d = 1
        · simp [hd]
        · rw [if_neg hd, if_neg hP, if_neg hP,
            show a * (d * prodShape t) + r = r + a * d * prodShape t by ring,
            Nat.add_mul_div_right _ _ hP', Nat.add_mul_mod_self_right]
      · rw [show a * (d * prodShape t) = a * d * prodShape t by ring, ih (a * d)]

/-- Decoding the row-major offset of a legal coordinate recovers the
coordinate. -/
theorem coordsOf_dotStrides {c s : List Nat} (h : valid_coord c s = true) :
    coordsOf (dotStrides c (natStrides s)) s = c := by
  induction s generalizing c with
  | nil =>
    cases c with
    | nil => rfl
    | cons i c => exact absurd (valid_coord_length h) (by simp)
  | cons d t ih =>
    cases c with
    | nil => exact absurd (valid_coord_length h) (by simp)
    | cons i c =>
      obtain ⟨hid, hct⟩ := valid_coord_cons.mp h
      have hP : 0 < prodShape t := valid_coord_prod_pos hct
      have hPne : prodShape t ≠ 0 := Nat.pos_iff_ne_zero.mp hP
      have hr : dotStrides c (natStrides t) < prodShape t :=
        dotStrides_natStrides_lt hct
      rw [show natStrides (d :: t) = prodShape t :: natStrides t from rfl,
        dotStrides_cons,
        show coordsOf (i * prodShape t + dotStrides c (natStrides t)) (d :: t)
          = (if (if d = 1 then 0 else prodShape t) = 0 then 0
             else (i * prodShape t + dotStrides c (natStrides t)) / prodShape t % d)
            :: coordsOf (i * prodShape t + dotStrides c (natStrides t)) t from rfl]
      simp only [List.cons.injEq]
      refine ⟨?_, ?_⟩
      · by_cases hd : d = 1
        · have hi : i = 0 := by omega
          simp [hd, hi]
        · rw [if_neg hd, if_neg hPne,
            show i * prodShape t + dotStrides c (natStrides t)
              = dotStrides c (natStrides t) + i * prodShape t by ring,
            Nat.add_mul_div_right _ _ hP, Nat.div_eq_of_lt hr, Nat.zero_add,
            Nat.mod_eq_of_lt hid]
      · rw [coordsOf_add_mul i (dotStrides c (natStrides t)) t, ih hct]

theorem stridesCore_length (s : List Nat) : (stridesCore s).length = s.length := by
  induction s with
  | nil => rfl
  | cons d t ih => simp [stridesCore, ih]

theorem strides_for_self (s : List Nat) : strides_for s s.length = stridesCore s := by
  simp [strides_for]

theorem zip_reverse_eq {xs : List α} {ys : List β} (h : xs.length = ys.length) :
    xs.reverse.zip ys.reverse = (xs.zip ys).reverse := by
  induction xs generalizing ys with
  | nil => cases ys with | nil => rfl | cons b bs => simp at h
  | cons a as ih =>
    cases ys with
    | nil => simp at h
    | cons b bs =>
      have hlen : as.length = bs.length := by simpa using h
      simp only [List.reverse_cons, List.zip_cons_cons]
      rw [List.zip_append (by simp [hlen]), ih hlen]
      simp

theorem dotStrides_zip_nil (xs : List Nat) : dotStrides xs [] = 0 := by
  cases xs <;> simp [dotStrides]

theorem dotStrides_reverse {xs ys : List Nat} (h : xs.length = ys.length) :
    dotStrides xs.reverse ys.reverse = dotStrides xs ys := by
  unfold dotStrides
  rw [zip_reverse_eq h, List.map_reverse, List.sum_reverse]

/-- Right-aligning a longer coordinate list against a shorter stride list
is the same as dropping the extra leading coordinates. -/
theorem dotStrides_reverse_drop {xs ys : List Nat} (h : ys.length ≤ xs.length) :
    dotStrides xs.reverse ys.reverse
      = dotStrides (xs.drop (xs.length - ys.length)) ys := by
  have hsplit := List.take_append_drop (xs.length - ys.length) xs
  have hvlen : (xs.drop (xs.length - ys.length)).length = ys.length := by
    rw [List.length_drop]; omega
  calc dotStrides xs.reverse ys.reverse
      = dotStrides ((xs.drop (xs.length - ys.length)).reverse
          ++ (xs.take (xs.length - ys.length)).reverse) ys.reverse := by
        conv_lhs => rw [← hsplit]
        rw [List.reverse_append]
    _ = dotStrides (xs.drop (xs.length - ys.length)).reverse ys.reverse := by
        unfold dotStrides
        rw [show ys.reverse = ys.reverse ++ [] by simp,
          List.zip_append (by simp [hvlen])]
        simp
    _ = dotStrides (xs.drop (xs.length - ys.length)) ys :=
        dotStrides_reverse (by simp [hvlen])

/-- The claim's broadcast compatibility: right-aligned, each source dim
equal to the target dim or 1 (so the target is never smaller). -/
def compatSuffix : List Nat → List Nat → Bool
  | [], [] => true
  | a :: as, b :: bs => (a == b || a == 1) && compatSuffix as bs
  | _, _ => false

/-- See `compatSuffix`: the source shape is no longer than the target and
is compatible with the right-aligned suffix of the target. -/
def BroadcastCompat (s t : List Nat) : Bool :=
  s.length ≤ t.length && compatSuffix s (t.drop (t.length - s.length))

/-- The claim's `project`: drop the leading target axes absent from the
source and zero out the indices of axes where the source dim is 1. -/
def projectCoord (coord src : List Nat) : List Nat :=
  ((coord.drop (coord.length - src.length)).zip src).map fun p =>
    if p.2 = 1 then 0 else p.1

theorem compatSuffix_cons {a b : Nat} {as bs : List Nat} :
    compatSuffix (a :: as) (b :: bs) = true
      ↔ (a = b ∨ a = 1) ∧ compatSuffix as bs = true := by
  simp [compatSuffix]

theorem compatSuffix_length {s t2 : List Nat}
    (h : compatSuffix s t2 = true) : s.length = t2.length := by
  induction s generalizing t2 with
  | nil => cases t2 with | nil => rfl | cons b bs => simp [compatSuffix] at h
  | cons a as ih =>
    cases t2 with
    | nil => simp [compatSuffix] at h
    | cons b bs =>
      obtain ⟨_, h2⟩ := compatSuffix_cons.mp h
      simp [ih h2]

theorem all_zip_compat_st {s t2 : List Nat} (h : compatSuffix s t2 = true) :
    ((s.zip t2).all fun p => p.1 == p.2 || p.1 == 1 || p.2 == 1) = true := by
  induction s generalizing t2 with
  | nil => simp
  | cons a as ih =>
    cases t2 with
    | nil => simp [compatSuffix] at h
    | cons b bs =>
      obtain ⟨h1, h2⟩ := compatSuffix_cons.mp h
      simp only [List.zip_cons_cons, List.all_cons, Bool.and_eq_true, ih h2,
        and_true]
      rcases h1 with h1 | h1 <;> simp [h1]

theorem all_zip_compat_ts {s t2 : List Nat} (h : compatSuffix s t2 = true) :
    ((t2.zip s).all fun p => p.1 == p.2 || p.1 == 1 || p.2 == 1) = true := by
  induction s generalizing t2 with
  | nil => cases t2 with | nil => simp | cons b bs => simp [compatSuffix] at h
  | cons a as ih =>
    cases t2 with
    | nil => simp [compatSuffix] at h
    | cons b bs =>
      obtain ⟨h1, h2⟩ := compatSuffix_cons.mp h
      simp only [List.zip_cons_cons, List.all_cons, Bool.and_eq_true, ih h2,
        and_true]
      rcases h1 with h1 | h1 <;> simp [h1]

/-- The spec-style compatibility predicate implies the code's
`can_broadcast` check. -/
theorem can_broadcast_of_compat {s t : List Nat}
    (h : BroadcastCompat s t = true) : can_broadcast s t = true := by
  obtain ⟨hle, hsuf⟩ := by simpa [BroadcastCompat] using h
  have hlen2 : s.length = (t.drop (t.length - s.length)).length :=
    compatSuffix_length hsuf
  have hsplit := List.take_append_drop (t.length - s.length) t
  unfold can_broadcast canBroadcastZip
  by_cases hlt : s.length < t.length
  · rw [if_pos hlt]
    have : t.reverse.zip s.reverse
        = ((t.drop (t.length - s.length)).zip s).reverse := by
      conv_lhs => rw [← hsplit]
      rw [List.reverse_append,
        show s.reverse = s.reverse ++ [] by simp,
        List.zip_append (by simp [hlen2.symm]), zip_reverse_eq hlen2.symm]
      simp
    rw [this, List.all_reverse]
    exact all_zip_compat_ts hsuf
  · rw [if_neg hlt]
    have heq : s.length = t.length := by omega
    have hdrop : t.drop (t.length - s.length) = t := by
      rw [heq, Nat.sub_self, List.drop_zero]
    rw [hdrop] at hsuf
    rw [zip_reverse_eq heq, List.all_reverse]
    exact all_zip_compat_st hsuf

/-- Replacing an aligned coordinate by its projection does not change the
offset computed against the zeroed source strides. -/
theorem dotStrides_project {c2 s : List Nat} (h : c2.length = s.length) :
    dotStrides c2 (stridesCore s)
      = dotStrides ((c2.zip s).map fun p => if p.2 = 1 then 0 else p.1)
          (stridesCore s) := by
  induction s generalizing c2 with
  | nil => cases c2 <;> rfl
  | cons d t ih =>
    cases c2 with
    | nil => simp at h
    | cons i c =>
      have hlen : c.length = t.length := by simpa using h
      rw [show stridesCore (d :: t)
          = (if d = 1 then 0 else prodShape t) :: stridesCore t from rfl]
      simp only [List.zip_cons_cons, List.map_cons, dotStrides_cons]
      rw [← ih hlen]
      by_cases hd : d = 1 <;> simp [hd]

/-- Projection of a legal aligned coordinate is legal for the source. -/
theorem valid_coord_project {c2 s t2 : List Nat}
    (hsuf : compatSuffix s t2 = true) (hc : valid_coord c2 t2 = true) :
    valid_coord ((c2.zip s).map fun p => if p.2 = 1 then 0 else p.1) s
      = true := by
  induction s generalizing c2 t2 with
  | nil => cases c2 <;> rfl
  | cons d t ih =>
    cases t2 with
    | nil => simp [compatSuffix] at hsuf
    | cons e t2' =>
      cases c2 with
      | nil => exact absurd (valid_coord_length hc) (by simp)
      | cons i c =>
        obtain ⟨h1, h2⟩ := compatSuffix_cons.mp hsuf
        obtain ⟨hie, hct⟩ := valid_coord_cons.mp hc
        simp only [List.zip_cons_cons, List.map_cons]
        refine valid_coord_cons.mpr ⟨?_, ih h2 hct⟩
        by_cases hd : d = 1
        · simp [hd]
        · have hde : d = e := by tauto
          subst hde
          simp [hd, hie]

theorem valid_coord_drop {c s : List Nat} (n : Nat)
    (h : valid_coord c s = true) :
    valid_coord (c.drop n) (s.drop n) = true := by
  induction n generalizing c s with
  | zero => simpa using h
  | succ n ih =>
    cases c with
    | nil =>
      cases s with
      | nil => simpa using h
      | cons d t => exact absurd (valid_coord_length h) (by simp)
    | cons i c =>
      cases s with
      | nil => exact absurd (valid_coord_length h) (by simp)
      | cons d t =>
        simp only [List.drop_succ_cons]
        exact ih (valid_coord_cons.mp h).2

/-! ### Claim theorems -/

/-- C6: for every array `A`, broadcast-compatible target shape `t`
(right-aligned, each source dim equal to the target dim or 1, the target
never smaller), and coordinate legal for `t`, reading the broadcast array
at `coord` equals reading `A` at `project(coord, A.shape)`, where
`project` drops the leading axes absent from the source and zeros the
indices of axes whose source dim is 1; and the materialized broadcast of
ones of shape [300,1,2] into [300,250,2] sums to 150000. -/
theorem broadcast_read_value_projects :
    (∀ (α : Type) [Inhabited α] (A : NDArr α) (t coord : List Nat),
        BroadcastCompat A.shape t = true → valid_coord coord t = true →
        (A.broadcast t).bind (fun B => B.read_value coord)
          = A.read_value (projectCoord coord A.shape))
    ∧ (((NDArr.broadcast ⟨[300, 1, 2], AccessBuf (List.replicate 600 (1 : Nat))⟩
          [300, 250, 2]).bind NDArr.buffer).map List.sum = .ok 150000) := by
  constructor
  · intro α inst A t coord hcompat hcoord
    obtain ⟨hle, hsuf⟩ : A.shape.length ≤ t.length
        ∧ compatSuffix A.shape (t.drop (t.length - A.shape.length)) = true := by
      simpa [BroadcastCompat] using hcompat
    have hct : coord.length = t.length := valid_coord_length hcoord
    have hslen : (stridesCore A.shape).length ≤ coord.length := by
      rw [stridesCore_length, hct]; exact hle
    have hdroplen : (coord.drop (coord.length - A.shape.length)).length
        = A.shape.length := by
      rw [List.length_drop]; omega
    have hc2 : valid_coord (coord.drop (coord.length - A.shape.length))
        (t.drop (t.length - A.shape.length)) = true := by
      rw [hct]; exact valid_coord_drop _ hcoord
    have hvalidproj : valid_coord (projectCoord coord A.shape) A.shape = true :=
      valid_coord_project hsuf hc2
    have hcb := can_broadcast_of_compat hcompat
    rw [NDArr.broadcast, if_pos hcb]
    show NDArr.read_value ⟨t, viewAccess A.access (View.broadcastSpec A.shape t)⟩
        coord = NDArr.read_value A (projectCoord coord A.shape)
    have key : (View.broadcastSpec A.shape t).source_offset
        (dotStrides coord (strides_for t t.length))
      = dotStrides (projectCoord coord A.shape)
          (strides_for A.shape A.shape.length) := by
      simp only [ViewSpec.source_offset, View.broadcastSpec, strides_for_self]
      rw [dotStrides_stridesCore_eq hcoord, coordsOf_dotStrides hcoord,
        dotStrides_reverse_drop hslen, stridesCore_length, projectCoord]
      exact dotStrides_project hdroplen
    show (if valid_coord coord t = true then
            (viewAccess A.access (View.broadcastSpec A.shape t)).read_value
              (dotStrides coord (strides_for t t.length))
          else .error .Bounds)
        = NDArr.read_value A (projectCoord coord A.shape)
    rw [if_pos hcoord]
    show A.access.read_value
        ((View.broadcastSpec A.shape t).source_offset
          (dotStrides coord (strides_for t t.length)))
      = NDArr.read_value A (projectCoord coord A.shape)
    rw [key, NDArr.read_value, if_pos hvalidproj]
  · have hcb : can_broadcast [300, 1, 2] [300, 250, 2] = true := by decide
    rw [NDArr.broadcast, if_pos hcb]
    have hbound : ∀ o : Nat,
        (View.broadcastSpec [300, 1, 2] [300, 250, 2]).source_offset o
          < 600 := by
      intro o
      simp [ViewSpec.source_offset, View.broadcastSpec, strides_for,
        stridesCore, prodShape, coordsOf, dotStrides]
      omega
    have hmap : (List.range
          (ViewSpec.size (View.broadcastSpec [300, 1, 2] [300, 250, 2]))).map
        (fun o => (List.replicate 600 (1 : Nat)).getD
          ((View.broadcastSpec [300, 1, 2] [300, 250, 2]).source_offset o)
          default)
        = List.replicate 150000 1 := by
      rw [List.eq_replicate_iff]
      constructor
      · rw [List.length_map, List.length_range]
        rfl
      · intro b hb
        obtain ⟨o, _, rfl⟩ := List.mem_map.mp hb
        rw [List.getD_eq_getElem?_getD,
          List.getElem?_replicate_of_lt (hbound o)]
        rfl
    show (Except.ok ((List.range
          (ViewSpec.size (View.broadcastSpec [300, 1, 2] [300, 250, 2]))).map
        (fun o => (List.replicate 600 (1 : Nat)).getD
          ((View.broadcastSpec [300, 1, 2] [300, 250, 2]).source_offset o)
          default))).map List.sum = .ok 150000
    rw [hmap]
    show Except.ok ((List.replicate 150000 (1 : Nat)).sum) = .ok 150000
    rw [List.sum_replicate, smul_eq_mul, Nat.mul_one]

/-- Witness for C6: broadcasting [5, 6] from shape [2,1] into [2,3] and
reading at [1,2] equals reading the source at the projected coordinate. -/
theorem broadcast_read_value_projects_witness :
    BroadcastCompat [2, 1] [2, 3] = true
    ∧ valid_coord [1, 2] [2, 3] = true
    ∧ ((NDArr.broadcast ⟨[2, 1], AccessBuf [(5 : Nat), 6]⟩ [2, 3]).bind
        fun B => B.read_value [1, 2])
      = NDArr.read_value ⟨[2, 1], AccessBuf [(5 : Nat), 6]⟩
          (projectCoord [1, 2] [2, 1]) :=
  ⟨by decide, by decide,
    broadcast_read_value_projects.1 Nat ⟨[2, 1], AccessBuf [5, 6]⟩ [2, 3]
      [1, 2] (by decide) (by decide)⟩

/-- C1 (counterexample): the array backed by an unevaluated MatMul node
has the legal coordinate [0,0], its buffer() yields [6], but read_value
returns a Bounds error instead of Ok(6): read_value does fail on a legal
coordinate of some arrays. -/
theorem read_value_fails_on_matmul :
    valid_coord [0, 0] [1, 1] = true
    ∧ NDArr.buffer mmArr = .ok [6]
    ∧ NDArr.read_value mmArr [0, 0] = .error .Bounds :=
  ⟨rfl, rfl, rfl⟩

/-- C1 (amended): for every buffer-backed array and legal coordinate,
read_value returns Ok of exactly the buffer element at the row-major
offset of the coordinate (which is in bounds); arrays backed by an op
without random-access support (MatMul, RandomNormal) instead fail. -/
theorem read_value_eq_buffer_element (α : Type) [Inhabited α]
    (shape : List Nat) (buf : List α) (coord : List Nat)
    (hsize : prodShape shape = buf.length)
    (hcoord : valid_coord coord shape = true) :
    NDArr.read_value ⟨shape, AccessBuf buf⟩ coord
      = .ok (buf.getD (dotStrides coord (natStrides shape)) default)
    ∧ dotStrides coord (natStrides shape) < buf.length
    ∧ NDArr.buffer ⟨shape, AccessBuf buf⟩ = .ok buf := by
  have hlt : dotStrides coord (natStrides shape) < buf.length := by
    rw [← hsize]; exact dotStrides_natStrides_lt hcoord
  refine ⟨?_, hlt, rfl⟩
  show (if valid_coord coord shape = true then
          (AccessBuf buf).read_value
            (dotStrides coord (strides_for shape shape.length))
        else .error .Bounds)
      = .ok (buf.getD (dotStrides coord (natStrides shape)) default)
  rw [if_pos hcoord, strides_for_self, dotStrides_stridesCore_eq hcoord]
  show (if h : dotStrides coord (natStrides shape) < buf.length then
          Except.ok (buf.get ⟨dotStrides coord (natStrides shape), h⟩)
        else Except.error Err.Bounds)
      = Except.ok (buf.getD (dotStrides coord (natStrides shape)) default)
  rw [dif_pos hlt, List.getD_eq_getElem?_getD, List.getElem?_eq_getElem hlt]
  rfl

/-- Witness for the amended C1 at shape [2,2], buffer [1,2,3,4], coord
[1,0] (row-major offset 2). -/
theorem read_value_eq_buffer_element_witness :
    prodShape [2, 2] = [(1 : Int), 2, 3, 4].length
    ∧ valid_coord [1, 0] [2, 2] = true
    ∧ NDArr.read_value ⟨[2, 2], AccessBuf [(1 : Int), 2, 3, 4]⟩ [1, 0]
      = .ok ([(1 : Int), 2, 3, 4].getD
          (dotStrides [1, 0] (natStrides [2, 2])) default) :=
  ⟨rfl, rfl,
    (read_value_eq_buffer_element Int [2, 2] [1, 2, 3, 4] [1, 0] rfl rfl).1⟩

/-- C2: squeezing away a dim-2 axis succeeds and yields an array whose
shape product (3) no longer equals its accessor's size (6): the size
invariant `shape.product() == accessor.size()` does not survive squeeze. -/
theorem squeeze_breaks_size_invariant :
    (NDArr.squeeze ⟨[2, 3], AccessBuf [(0 : Int), 1, 2, 3, 4, 5]⟩ [0]).map
        (fun B => (prodShape B.shape, B.access.size)) = .ok (3, 6)
    ∧ (3 : Nat) ≠ 6 :=
  ⟨rfl, by decide⟩

/-- C3: for batch_size 1 and dim 2 over source [10,20,30,40], the
enqueued buffer holds the diagonal [10, 40] (offset 1 is source element
3, value 40, as the claim states), but read_value(1) divides by
batch_size instead of dim, computes source offset 4, and fails with
Bounds instead of returning Ok(40). -/
theorem matdiag_read_value_mismatch :
    MatDiag.size mdEx = 2
    ∧ (MatDiag.hostEnqueue mdEx).map HostBuffer.data = .ok [10, 40]
    ∧ MatDiag.read_value mdEx 1 = .error .Bounds :=
  ⟨rfl, rfl, rfl⟩

/-- C4: a gather slice (range `[Of([0,0,1])]`) of size 3 over a 2-element
source [5, 6]: write_value(7) succeeds but loops over the source's 2
offsets only, so it never writes source element 1; slice element 2 still
reads the old value 6 instead of 7. -/
theorem slice_write_value_misses_elements :
    SliceSpec.size sliceEx = 3
    ∧ Slice.overwrite_value sliceEx [(5 : Int), 6] 7 = .ok [7, 6]
    ∧ Slice.read_value sliceEx (AccessBuf [(7 : Int), 6]) 2 = .ok 6
    ∧ (6 : Int) ≠ 7 :=
  ⟨rfl, rfl, rfl, by decide⟩

/-- C5: squeezing axis 1 of shape [2,3] — an axis of dimension 3, not 1 —
succeeds with shape [2] although both the claim and the method's own doc
comment require a Bounds error for a non-unit axis. -/
theorem squeeze_accepts_non_unit_axis :
    (NDArr.squeeze ⟨[2, 3], AccessBuf [(0 : Int), 1, 2, 3, 4, 5]⟩ [1]).map
      NDArr.shape = .ok [2] := rfl

theorem except_bind_error {α β : Type} (e : Err) (f : α → Except Err β) :
    (Except.error e >>= f) = Except.error e := rfl

theorem except_bind_ok {α β : Type} (a : α) (f : α → Except Err β) :
    (Except.ok a >>= f) = f a := rfl

theorem except_pure {α : Type} (a : α) :
    (pure a : Except Err α) = Except.ok a := rfl

/-- C7 (amended): every op family's Host enqueue takes the Stack path
exactly when its advertised output size is below VEC_MIN_SIZE — except
Reduce, whose condition additionally requires the reduce stride below
VEC_MIN_SIZE, and MatMul, which tests each operand's size. -/
theorem host_enqueue_dispatch :
    (∀ (α β : Type) (ci : CTypeM α) (co : CTypeM β) (op : CastOp α)
        (b : HostBuffer β), op.hostEnqueue ci co = .ok b →
        b.isStack = decide (op.access.size < VEC_MIN_SIZE))
    ∧ (∀ (α β : Type) (op : DualOp α β) (b : HostBuffer β),
        op.hostEnqueue = .ok b →
        b.isStack = decide (op.left.size < VEC_MIN_SIZE))
    ∧ (∀ (α : Type) (op : CondOp α) (b : HostBuffer α),
        op.hostEnqueue = .ok b →
        b.isStack = decide (op.cond.size < VEC_MIN_SIZE))
    ∧ (∀ (τ : Type) (ct : CTypeM τ) (l : Linear τ),
        (l.hostEnqueue ct).isStack = decide (l.size < VEC_MIN_SIZE))
    ∧ (∀ (α : Type) [Inhabited α] (m : MatDiag α) (b : HostBuffer α),
        m.hostEnqueue = .ok b → b.isStack = decide (m.size < VEC_MIN_SIZE))
    ∧ (∀ (α : Type) [Inhabited α] (zero : α) (add mul : α → α → α)
        (m : MatMul α) (b : HostBuffer α),
        m.hostEnqueue zero add mul = .ok b →
        b.isStack = decide (m.left.size < VEC_MIN_SIZE
          ∧ m.right.size < VEC_MIN_SIZE))
    ∧ (∀ (α : Type) [Inhabited α] (op : RandomNormal) (rng : Nat → α)
        (bm : α → α → α × α),
        (op.hostEnqueue rng bm).isStack = decide (op.size < VEC_MIN_SIZE))
    ∧ (∀ (α : Type) (op : RandomUniform) (rng : Nat → α),
        (op.hostEnqueue rng).isStack = decide (op.size < VEC_MIN_SIZE))
    ∧ (∀ (α : Type) (r : Reduce α) (b : HostBuffer α),
        r.hostEnqueue = .ok b →
        b.isStack = decide (r.stride < VEC_MIN_SIZE ∧ r.size < VEC_MIN_SIZE))
    ∧ (∀ (α β : Type) (s : ScalarOp α β) (b : HostBuffer β),
        s.hostEnqueue = .ok b →
        b.isStack = decide (s.access.size < VEC_MIN_SIZE))
    ∧ (∀ (α : Type) [Inhabited α] (spec : SliceSpec) (access : Access α)
        (b : HostBuffer α), Slice.hostEnqueue spec access = .ok b →
        b.isStack = decide (spec.size < VEC_MIN_SIZE))
    ∧ (∀ (α β : Type) (u : UnaryOp α β) (b : HostBuffer β),
        u.hostEnqueue = .ok b →
        b.isStack = decide (u.access.size < VEC_MIN_SIZE))
    ∧ (∀ (α : Type) [Inhabited α] (spec : ViewSpec) (access : Access α)
        (b : HostBuffer α), View.hostEnqueue spec access = .ok b →
        b.isStack = decide (spec.size < VEC_MIN_SIZE)) := by
  refine ⟨?_, ?_, ?_, ?_, ?_, ?_, ?_, ?_, ?_, ?_, ?_, ?_, ?_⟩
  · intro α β ci co op b h
    cases hr : op.access.read with
    | error e => simp [CastOp.hostEnqueue, hr, Except.map] at h
    | ok slice =>
      simp only [CastOp.hostEnqueue, hr, Except.map, Except.ok.injEq] at h
      subst h
      by_cases hc : op.access.size < VEC_MIN_SIZE <;>
        simp [hc, HostBuffer.isStack]
  · intro α β op b h
    cases hl : op.left.read with
    | error e => simp [DualOp.hostEnqueue, hl, except_bind_error] at h
    | ok left =>
      cases hrr : op.right.read with
      | error e =>
        simp [DualOp.hostEnqueue, hl, hrr, except_bind_ok,
          except_bind_error] at h
      | ok right =>
        simp only [DualOp.hostEnqueue, hl, hrr, except_bind_ok,
          except_pure] at h
        by_cases hc : op.left.size < VEC_MIN_SIZE <;>
          simp only [hc, if_true, if_false, Except.ok.injEq] at h <;>
            subst h <;> simp [hc, HostBuffer.isStack]
  · intro α op b h
    cases h1 : op.cond.read with
    | error e => simp [CondOp.hostEnqueue, h1, except_bind_error] at h
    | ok cond =>
      cases h2 : op.thenA.read with
      | error e =>
        simp [CondOp.hostEnqueue, h1, h2, except_bind_ok,
          except_bind_error] at h
      | ok thenV =>
        cases h3 : op.orElse.read with
        | error e =>
          simp [CondOp.hostEnqueue, h1, h2, h3, except_bind_ok,
            except_bind_error] at h
        | ok elseV =>
          simp only [CondOp.hostEnqueue, h1, h2, h3, except_bind_ok,
            except_pure] at h
          by_cases hc : op.cond.size < VEC_MIN_SIZE <;>
            simp only [hc, if_true, if_false, Except.ok.injEq] at h <;>
              subst h <;> simp [hc, HostBuffer.isStack]
  · intro τ ct l
    by_cases hc : l.size < VEC_MIN_SIZE <;>
      simp [Linear.hostEnqueue, hc, HostBuffer.isStack]
  · intro α inst m b h
    cases hr : m.access.read with
    | error e => simp [MatDiag.hostEnqueue, hr, Except.map] at h
    | ok input =>
      simp only [MatDiag.hostEnqueue, hr, Except.map, Except.ok.injEq] at h
      subst h
      by_cases hc : m.size < VEC_MIN_SIZE <;> simp [hc, HostBuffer.isStack]
  · intro α inst zero add mul m b h
    cases hl : m.left.read with
    | error e => simp [MatMul.hostEnqueue, hl, except_bind_error] at h
    | ok left =>
      cases hrr : m.right.read with
      | error e =>
        simp [MatMul.hostEnqueue, hl, hrr, except_bind_ok,
          except_bind_error] at h
      | ok right =>
        simp only [MatMul.hostEnqueue, hl, hrr, except_bind_ok,
          except_pure] at h
        by_cases hc : m.left.size < VEC_MIN_SIZE ∧ m.right.size < VEC_MIN_SIZE
        · rw [if_pos hc] at h
          simp only [Except.ok.injEq] at h
          subst h
          simp [hc, HostBuffer.isStack]
        · rw [if_neg hc] at h
          simp only [Except.ok.injEq] at h
          subst h
          simp [hc, HostBuffer.isStack]
  · intro α inst op rng bm
    by_cases hc : op.size < VEC_MIN_SIZE <;>
      simp [RandomNormal.hostEnqueue, hc, HostBuffer.isStack]
  · intro α op rng
    by_cases hc : op.size < VEC_MIN_SIZE <;>
      simp [RandomUniform.hostEnqueue, hc, HostBuffer.isStack]
  · intro α r b h
    cases hr : r.access.read with
    | error e => simp [Reduce.hostEnqueue, hr, Except.map] at h
    | ok slice =>
      simp only [Reduce.hostEnqueue, hr, Except.map, Except.ok.injEq] at h
      subst h
      by_cases hc : r.stride < VEC_MIN_SIZE ∧ r.size < VEC_MIN_SIZE <;>
        simp [hc, HostBuffer.isStack]
  · intro α β s b h
    cases hr : s.access.read with
    | error e => simp [ScalarOp.hostEnqueue, hr, Except.map] at h
    | ok slice =>
      simp only [ScalarOp.hostEnqueue, hr, Except.map, Except.ok.injEq] at h
      subst h
      by_cases hc : s.access.size < VEC_MIN_SIZE <;>
        simp [hc, HostBuffer.isStack]
  · intro α inst spec access b h
    cases hr : access.read with
    | error e => simp [Slice.hostEnqueue, hr, Except.map] at h
    | ok source =>
      simp only [Slice.hostEnqueue, hr, Except.map, Except.ok.injEq] at h
      subst h
      by_cases hc : spec.size < VEC_MIN_SIZE <;> simp [hc, HostBuffer.isStack]
  · intro α β u b h
    cases hr : u.access.read with
    | error e => simp [UnaryOp.hostEnqueue, hr, Except.map] at h
    | ok slice =>
      simp only [UnaryOp.hostEnqueue, hr, Except.map, Except.ok.injEq] at h
      subst h
      by_cases hc : u.access.size < VEC_MIN_SIZE <;>
        simp [hc, HostBuffer.isStack]
  · intro α inst spec access b h
    cases hr : access.read with
    | error e => simp [View.hostEnqueue, hr, Except.map] at h
    | ok source =>
      simp only [View.hostEnqueue, hr, Except.map, Except.ok.injEq] at h
      subst h
      by_cases hc : spec.size < VEC_MIN_SIZE <;> simp [hc, HostBuffer.isStack]

/-- C7 (counterexample): `reduceWide` has advertised output size 1, below
VEC_MIN_SIZE, yet its Host enqueue takes the Heap path because its reduce
stride (64) is not below VEC_MIN_SIZE. -/
theorem reduce_dispatch_heap_despite_small_size :
    Reduce.size reduceWide = 1
    ∧ Reduce.size reduceWide < VEC_MIN_SIZE
    ∧ (Reduce.hostEnqueue reduceWide).map HostBuffer.isStack = .ok false :=
  ⟨rfl, by decide, rfl⟩

/-- Witness for the amended C7: the Reduce conjunct applied to the
concrete `reduceNarrow`, whose enqueue is a Stack buffer. -/
theorem host_enqueue_dispatch_witness :
    Reduce.hostEnqueue reduceNarrow = .ok (.stack [3, 7])
    ∧ (HostBuffer.stack [(3 : Int), 7]).isStack
      = decide (reduceNarrow.stride < VEC_MIN_SIZE
        ∧ reduceNarrow.size < VEC_MIN_SIZE) :=
  ⟨rfl, host_enqueue_dispatch.2.2.2.2.2.2.2.2.1 Int reduceNarrow
    (.stack [3, 7]) rfl⟩

/-- C8 (amended): Linear random access is exact and agrees with the Heap
enqueue path: `read_value(i)` and heap element `i` both equal
`value_at(i) = T::add(start, T::from_f64(i*step))`; the Stack path
instead materializes `T::from_f64(start.to_f64() + i*step)`.  Over the
exact f64 (rational) element type the two paths coincide and every
element equals `start + i*step`; over an integer element type they can
differ (see the counterexample). -/
theorem linear_read_value_exact :
    (∀ (τ : Type) (ct : CTypeM τ) (l : Linear τ) (i : Nat), i < l.size →
        l.read_value ct i = .ok (l.value_at ct i)
        ∧ (l.heapEnqueue ct)[i]? = some (l.value_at ct i)
        ∧ (l.stackEnqueue ct)[i]?
          = some (ct.fromF64 (ct.toF64 l.start + (i : ℚ) * l.step)))
    ∧ (∀ (l : Linear ℚ) (i : Nat), i < l.size →
        (l.stackEnqueue ratCT)[i]? = (l.heapEnqueue ratCT)[i]?
        ∧ (l.heapEnqueue ratCT)[i]? = some (l.start + (i : ℚ) * l.step)) := by
  constructor
  · intro τ ct l i hi
    refine ⟨rfl, ?_, ?_⟩
    · rw [Linear.heapEnqueue, List.getElem?_map, List.getElem?_range hi]
      rfl
    · rw [Linear.stackEnqueue, List.getElem?_map, List.getElem?_range hi]
      rfl
  · intro l i hi
    constructor
    · rw [Linear.stackEnqueue, Linear.heapEnqueue, List.getElem?_map,
        List.getElem?_map, List.getElem?_range hi]
      rfl
    · rw [Linear.heapEnqueue, List.getElem?_map, List.getElem?_range hi]
      rfl

/-- C8 (counterexample): for the u8 element type with start 100 and step
-50, the Stack path materializes [100, 50] but the Heap path (and
read_value) yields [100, 100]: from_f64 saturates the negative offset
-50 to 0 before the add.  The two enqueue paths are not element-for-
element identical, and the claimed via-f64 formula only matches the
Stack path. -/
theorem linear_stack_heap_differ :
    Linear.stackEnqueue u8CT ⟨100, -50, 2⟩ = [100, 50]
    ∧ Linear.heapEnqueue u8CT ⟨100, -50, 2⟩ = [100, 100]
    ∧ Linear.read_value u8CT ⟨100, -50, 2⟩ 1 = .ok 100
    ∧ (50 : Nat) ≠ 100 := by
  refine ⟨?_, ?_, ?_, by decide⟩
  · rw [Linear.stackEnqueue, show List.range 2 = [0, 1] from rfl]
    simp only [List.map_cons, List.map_nil, u8CT]
    norm_num
    omega
  · rw [Linear.heapEnqueue, show List.range 2 = [0, 1] from rfl]
    simp only [List.map_cons, List.map_nil, Linear.value_at, u8CT]
    norm_num
  · rw [Linear.read_value]
    simp only [Linear.value_at, u8CT, Except.ok.injEq]
    norm_num

/-- Witness for the amended C8 at the f64 (rational) Linear op with start
2, step 3, size 4 and offset 1. -/
theorem linear_read_value_exact_witness :
    ((1 : Nat) < 4
      ∧ (Linear.mk (2 : ℚ) 3 4).read_value ratCT 1
        = .ok ((Linear.mk (2 : ℚ) 3 4).value_at ratCT 1))
    ∧ ((Linear.mk (2 : ℚ) 3 4).stackEnqueue ratCT)[1]?
      = ((Linear.mk (2 : ℚ) 3 4).heapEnqueue ratCT)[1]? :=
  ⟨⟨by decide, (linear_read_value_exact.1 ℚ ratCT ⟨2, 3, 4⟩ 1 (by decide)).1⟩,
    (linear_read_value_exact.2 ⟨2, 3, 4⟩ 1 (by decide)).1⟩

theorem chunksExact_length (n : Nat) (l : List α) :
    (chunksExact n l).length = l.length / n := by
  simp [chunksExact]

theorem length_flatten_pairs {β γ : Type} (l : List β) (f g : β → γ) :
    ((l.map fun x => [f x, g x]).flatten).length = 2 * l.length := by
  induction l with
  | nil => rfl
  | cons a t ih =>
    simp only [List.map_cons, List.flatten_cons, List.length_append, ih,
      List.length_cons, List.length_nil]
    omega

/-- C9: for every requested size (odd sizes included), both host enqueue
paths of RandomNormal yield a buffer of exactly `size` elements (drawing
`ceil(size/2)` Box-Muller pairs and truncating the surplus), and
read_value returns a Bounds error at every offset.  The uniform draw
stream and the Box-Muller kernel are arbitrary parameters. -/
theorem random_normal_size_and_read (α : Type) [Inhabited α]
    (size : Nat) (rng : Nat → α) (bm : α → α → α × α) (offset : Nat) :
    (RandomNormal.heapEnqueue ⟨size⟩ rng bm).length = size
    ∧ (RandomNormal.stackEnqueue ⟨size⟩ rng bm).length = size
    ∧ ((RandomNormal.hostEnqueue ⟨size⟩ rng bm).data).length = size
    ∧ RandomNormal.read_value (α := α) ⟨size⟩ offset = .error .Bounds := by
  have hheap : (RandomNormal.heapEnqueue ⟨size⟩ rng bm).length = size := by
    simp only [RandomNormal.heapEnqueue]
    set u := (List.range (if size % 2 = 0 then size else size + 1)).map rng
      with hu
    set L := ((chunksExact 2 u).map fun p =>
      [(bm (p.getD 0 default) (p.getD 1 default)).1,
       (bm (p.getD 0 default) (p.getD 1 default)).2]).flatten with hL
    have hlen : L.length
        = 2 * ((if size % 2 = 0 then size else size + 1) / 2) := by
      rw [hL, length_flatten_pairs, chunksExact_length, hu, List.length_map,
        List.length_range]
    by_cases hpar : size % 2 = 0
    · have h1 : L.length = size := by rw [hlen, if_pos hpar]; omega
      rw [if_neg (by omega : ¬ size < L.length)]
      exact h1
    · have h1 : L.length = size + 1 := by rw [hlen, if_neg hpar]; omega
      rw [if_pos (by omega : size < L.length), List.length_dropLast, h1]
      omega
  have hstack : (RandomNormal.stackEnqueue ⟨size⟩ rng bm).length = size := by
    simp only [RandomNormal.stackEnqueue]
    set L := ((List.range ((size + 1) / 2)).map fun i =>
      [(bm (rng (2 * i)) (rng (2 * i + 1))).1,
       (bm (rng (2 * i)) (rng (2 * i + 1))).2]).flatten with hL
    have hlen : L.length = 2 * ((size + 1) / 2) := by
      rw [hL, length_flatten_pairs, List.length_range]
    by_cases hpar : size % 2 = 0
    · have h1 : L.length = size := by omega
      rw [if_neg (by omega : ¬ size < L.length)]
      exact h1
    · have h1 : L.length = size + 1 := by omega
      rw [if_pos (by omega : size < L.length), List.length_dropLast, h1]
      omega
  refine ⟨hheap, hstack, ?_, rfl⟩
  rw [RandomNormal.hostEnqueue]
  by_cases hc : size < VEC_MIN_SIZE
  · rw [if_pos hc]
    exact hstack
  · rw [if_neg hc]
    exact hheap

/-- C10 (amended): the OpenCL range constructor rejects exactly
`start > stop` and otherwise builds a Linear op with step
`(stop-start)/n`, so element `i` equals `start + i*(stop-start)/n`; when
`start < stop` the value `stop` itself is never produced (half-open), but
when `start = stop` every element equals `stop` (see the counterexample).
Stated over the exact f64 (rational) model. -/
theorem clrange_half_open :
    (∀ (start stop : ℚ) (n : Nat), ¬ start ≤ stop →
        clRange ratCT start stop n = .error .Bounds)
    ∧ (∀ (start stop : ℚ) (n : Nat), start ≤ stop →
        clRange ratCT start stop n
          = .ok { start := start, step := (stop - start) / (n : ℚ), size := n }
        ∧ ∀ i : Nat,
          (Linear.mk start ((stop - start) / (n : ℚ)) n).read_value ratCT i
            = .ok (start + (i : ℚ) * ((stop - start) / (n : ℚ))))
    ∧ (∀ (start stop : ℚ) (n i : Nat), start < stop → i < n →
        start + (i : ℚ) * ((stop - start) / (n : ℚ)) < stop) := by
  refine ⟨?_, ?_, ?_⟩
  · intro start stop n h
    simp [clRange, ratCT, h]
  · intro start stop n h
    constructor
    · simp [clRange, ratCT, h]
    · intro i
      rfl
  · intro start stop n i hlt hin
    have hn : (0 : ℚ) < n := by
      have h0 : 0 < n := Nat.lt_of_le_of_lt (Nat.zero_le i) hin
      exact_mod_cast h0
    have hi : (i : ℚ) < n := by exact_mod_cast hin
    have hs : 0 < stop - start := by linarith
    have hstep : (0 : ℚ) < (stop - start) / n := div_pos hs hn
    have h2 : (i : ℚ) * ((stop - start) / n) < n * ((stop - start) / n) :=
      mul_lt_mul_of_pos_right hi hstep
    have h3 : (n : ℚ) * ((stop - start) / n) = stop - start := by
      field_simp
    linarith

/-- C10 (counterexample): `range(1, 1, 1)` is accepted (start = stop) and
its only element is 1, which is exactly `stop`: the range is not
half-open when start = stop. -/
theorem clrange_produces_stop :
    clRange ratCT (1 : ℚ) 1 1
      = .ok { start := 1, step := ((1 : ℚ) - 1) / ((1 : Nat) : ℚ), size := 1 }
    ∧ (Linear.mk (1 : ℚ) (((1 : ℚ) - 1) / ((1 : Nat) : ℚ)) 1).read_value
        ratCT 0 = .ok 1 := by
  constructor
  · simp [clRange, ratCT]
  · simp only [Linear.read_value, Linear.value_at, ratCT, Except.ok.injEq]
    norm_num

/-- Witness for the amended C10: a rejected reversed range and a strictly
in-range element of `range(1, 4, 3)`. -/
theorem clrange_half_open_witness :
    (¬ (3 : ℚ) ≤ 1 ∧ clRange ratCT (3 : ℚ) 1 5 = .error .Bounds)
    ∧ ((1 : ℚ) < 4 ∧ (1 : Nat) < 3
        ∧ (1 : ℚ) + ((1 : Nat) : ℚ) * (((4 : ℚ) - 1) / ((3 : Nat) : ℚ)) < 4) :=
  ⟨⟨by norm_num, clrange_half_open.1 3 1 5 (by norm_num)⟩,
    ⟨by norm_num, by norm_num,
      clrange_half_open.2.2 1 4 3 1 (by norm_num) (by norm_num)⟩⟩

end Densor
